import Mathlib

/-!
# Verification of the glum GLM core

A shallow embedding, over exact rationals, of the penalized-GLM fitting core in
`src/glum/_glm.py` (regularization-path generation, solver auto-selection,
penalty setup, weight normalization, and the covariance-matrix estimator),
together with theorems settling the specified behavior of each piece.

Machine floats are idealized as rationals (and, for the logarithmically spaced
alpha grid, as reals); external library calls such as the family deviance
derivative, the intercept guess, and the linear solver are passed in as
parameters at the exact boundary where the Python code calls them.
-/

namespace Glum

/-! ## Regularization path: the maximum alpha (`_get_alpha_path`, C1) -/

/-- Maximum of a list of rationals, seeded with 0.  This models `np.max` on the
nonempty lists of absolute values appearing in `_get_alpha_path`; since every
element there is an absolute value, the 0 seed never changes the result. -/
def listMax (l : List ℚ) : ℚ :=
  l.foldr max 0

/-- The coefficient vector at which `_get_alpha_path` evaluates the deviance
gradient: all zeros, except that when an intercept is fitted the leading entry
is the guessed intercept (code lines 386-397). -/
def zeroCoefWithIntercept (fitIntercept : Bool) (interceptGuess : ℚ)
    (nFeatures : ℕ) : List ℚ :=
  if fitIntercept then interceptGuess :: List.replicate nFeatures 0
  else List.replicate nFeatures 0

/-- The maximum penalty computed by
`GeneralizedLinearRegressorBase._get_alpha_path` (code lines 382-416).
`devDerAt` is the external family capability
`_mu_deviance_derivative` (module `_distribution`), returning the deviance
derivative at a given coefficient vector; `P1noAlpha` is the per-feature L1
weight vector before scaling by alpha. -/
def getAlphaPathMax (fitIntercept : Bool) (P1noAlpha : List ℚ)
    (interceptGuess : ℚ) (nFeatures : ℕ) (devDerAt : List ℚ → List ℚ) : ℚ :=
  if P1noAlpha.all (fun x => decide (x = 0)) then 10
  else
    let ioff : ℕ := if fitIntercept then 1 else 0
    let devDer := devDerAt (zeroCoefWithIntercept fitIntercept interceptGuess nFeatures)
    listMax
      ((((devDer.drop ioff).zip P1noAlpha).filter
          (fun p => decide (0 < p.2))).map
        (fun p => |(-(1 : ℚ)/2) * p.1 / p.2|))

/-- The claim's formula for the maximum penalty, stated in the spec's words:
the maximum over L1-penalized coordinates j (those with positive weight) of
the absolute gradient over twice the weight. -/
def specAlphaMax (fitIntercept : Bool) (P1noAlpha : List ℚ)
    (interceptGuess : ℚ) (nFeatures : ℕ) (devDerAt : List ℚ → List ℚ) : ℚ :=
  let ioff : ℕ := if fitIntercept then 1 else 0
  let g := (devDerAt (zeroCoefWithIntercept fitIntercept interceptGuess nFeatures)).drop ioff
  listMax
    (((g.zip P1noAlpha).filter (fun p => decide (0 < p.2))).map
      (fun p => |p.1| / (2 * p.2)))

theorem abs_half_grad_eq (x p : ℚ) (hp : 0 < p) :
    |(-(1 : ℚ)/2) * x / p| = |x| / (2 * p) := by
  rw [abs_div, abs_mul, abs_of_pos hp]
  rw [show |(-(1 : ℚ)/2)| = 1/2 by norm_num]
  rw [div_eq_div_iff hp.ne' (by positivity : (2 * p : ℚ) ≠ 0)]
  ring

/-- C1.  If the per-feature L1 weight vector is not entirely zero, the maximum
penalty of the path equals the maximum over L1-penalized coordinates j of
the absolute deviance gradient at coordinate j divided by twice the weight,
the gradient being evaluated at the all-zero (or intercept-guess) coefficient
vector; if the weight vector is entirely zero, the maximum penalty is 10. -/
theorem alpha_path_max_spec (fitIntercept : Bool) (P1noAlpha : List ℚ)
    (interceptGuess : ℚ) (nFeatures : ℕ) (devDerAt : List ℚ → List ℚ) :
    getAlphaPathMax fitIntercept P1noAlpha interceptGuess nFeatures devDerAt =
      if P1noAlpha.all (fun x => decide (x = 0)) then 10
      else specAlphaMax fitIntercept P1noAlpha interceptGuess nFeatures devDerAt := by
  unfold getAlphaPathMax specAlphaMax
  by_cases h : P1noAlpha.all (fun x => decide (x = 0))
  · simp [h]
  · simp only [h, if_false]
    refine congrArg listMax (List.map_congr_left ?_)
    intro p hp
    rw [List.mem_filter] at hp
    exact abs_half_grad_eq p.1 p.2 (of_decide_eq_true hp.2)

example :
    getAlphaPathMax true [1/2, 0] 7 2 (fun _ => [3, 4, 6]) = 4 := by
  norm_num [getAlphaPathMax, zeroCoefWithIntercept, listMax]

example :
    getAlphaPathMax false [0, 0] 7 2 (fun _ => [3, 4]) = 10 := by
  norm_num [getAlphaPathMax]

/-! ## Solver auto-selection (`_set_up_for_fit`, C2) -/

/-- The inner solvers of glum, as named by the resolved `_solver` string. -/
inductive Solver
  | irlsLS
  | irlsCD
  | lbfgs
  | trustConstr
deriving DecidableEq, Repr

/-- The estimator attributes consulted by the solver auto-selection branch of
`_set_up_for_fit` (code lines 303-318).  Presence of the bound and constraint
arrays is all that branch inspects, so they are carried as booleans; `l1Ratio`
is a list because the CV estimator stores an array of ratios
(`np.all(np.asarray(self.l1_ratio) == 0)`); `hasAlpha` models
`hasattr(self, "alpha")`. -/
structure AutoSolverArgs where
  hasAineq : Bool
  hasBineq : Bool
  hasLowerBounds : Bool
  hasUpperBounds : Bool
  l1Ratio : List ℚ
  hasAlpha : Bool
  alpha : ℚ
  alphaSearch : Bool
deriving Repr

/-- The solver chosen by `_set_up_for_fit` when `solver="auto"`
(code lines 303-318). -/
def selectSolverAuto (a : AutoSolverArgs) : Solver :=
  if a.hasAineq ∧ a.hasBineq then .trustConstr
  else if ¬a.hasLowerBounds ∧ ¬a.hasUpperBounds then
    if a.l1Ratio.all (fun x => decide (x = 0)) then .irlsLS
    else if a.hasAlpha ∧ a.alpha = 0 ∧ ¬a.alphaSearch then .irlsLS
    else .irlsCD
  else .irlsCD

/-- The selection rule as the claim states it: inequality constraints force the
trust-region solver; otherwise bounds or a nonzero L1 ratio force coordinate
descent; otherwise least squares. -/
def specSolverRule (a : AutoSolverArgs) : Solver :=
  if a.hasAineq ∧ a.hasBineq then .trustConstr
  else if a.hasLowerBounds ∨ a.hasUpperBounds
      ∨ ¬(a.l1Ratio.all (fun x => decide (x = 0))) then .irlsCD
  else .irlsLS

/-- The configuration refuting the claim's selection rule: no constraints, no
bounds, L1 ratio one half, a scalar `alpha` equal to zero, no alpha search. -/
def l1HalfAlphaZeroArgs : AutoSolverArgs :=
  ⟨false, false, false, false, [1/2], true, 0, false⟩

/-- C2, counterexample.  With no constraints and no bounds, a nonzero L1 ratio,
but `alpha = 0` and no alpha search, the code selects the least-squares solver
while the claim's rule demands coordinate descent. -/
theorem select_solver_auto_ne_spec_rule :
    selectSolverAuto l1HalfAlphaZeroArgs = Solver.irlsLS
      ∧ specSolverRule l1HalfAlphaZeroArgs = Solver.irlsCD
      ∧ selectSolverAuto l1HalfAlphaZeroArgs ≠ specSolverRule l1HalfAlphaZeroArgs := by
  have h1 : selectSolverAuto l1HalfAlphaZeroArgs = Solver.irlsLS := by
    simp [selectSolverAuto, l1HalfAlphaZeroArgs, show ((1:ℚ)/2 = 0) = False by norm_num]
  have h2 : specSolverRule l1HalfAlphaZeroArgs = Solver.irlsCD := by
    simp [specSolverRule, l1HalfAlphaZeroArgs, show ((1:ℚ)/2 = 0) = False by norm_num]
  refine ⟨h1, h2, ?_⟩
  rw [h1, h2]
  exact fun h => Solver.noConfusion h

/-- C2, amended.  The auto-selection rule, with the one exception the code
adds: a nonzero L1 ratio selects coordinate descent unless the estimator has a
scalar `alpha` equal to zero and no alpha search is requested, in which case
the effective L1 penalty is certainly zero and least squares is selected. -/
theorem select_solver_auto_rule (a : AutoSolverArgs) :
    selectSolverAuto a =
      if a.hasAineq ∧ a.hasBineq then Solver.trustConstr
      else if a.hasLowerBounds ∨ a.hasUpperBounds then Solver.irlsCD
      else if a.l1Ratio.all (fun x => decide (x = 0))
          ∨ (a.hasAlpha ∧ a.alpha = 0 ∧ ¬a.alphaSearch) then Solver.irlsLS
      else Solver.irlsCD := by
  unfold selectSolverAuto
  rcases a with ⟨ai, bi, lb, ub, l1, ha, al, as⟩
  by_cases h1 : ai = true ∧ bi = true
  · simp [h1]
  · simp only [h1, if_false]
    cases lb <;> cases ub <;>
      by_cases h2 : l1.all (fun x => decide (x = 0)) <;>
      simp [h2]

/-! ## Normal + Identity one-iteration forcing (`_solve`, C4) -/

/-- The distribution families constructed by `get_family`
(module `_distribution`; only the tag matters here). -/
inductive Family
  | normal
  | poisson
  | gamma
  | binomial
  | inverseGaussian
  | tweedie (power : ℚ)
  | negativeBinomial (theta : ℚ)
  | generalizedHyperbolicSecant
deriving DecidableEq, Repr

/-- The link functions constructed by `get_link` (module `_link`). -/
inductive LinkKind
  | identity
  | log
  | logit
  | cloglog
  | tweedie (power : ℚ)
deriving DecidableEq, Repr

/-- Whether the resolved solver string contains the substring `"irls"`
(the test `"irls" in self._solver` on the resolved names
`irls-ls`, `irls-cd`, `lbfgs`, `trust-constr`). -/
def Solver.isIRLS : Solver → Bool
  | .irlsLS => true
  | .irlsCD => true
  | .lbfgs => false
  | .trustConstr => false

/-- The iteration limit and fixed inner tolerance chosen by
`GeneralizedLinearRegressorBase._solve` (code lines 436-447): for a Normal
family with Identity link under an IRLS solver, the limit is forced to 1 and
the inner tolerance is fixed to the pair of the gradient tolerance and the
step-size tolerance; otherwise the configured limit is used with no fixed
inner tolerance. -/
def solveMaxIterTol (family : Family) (link : LinkKind) (solver : Solver)
    (maxIter : ℕ) (gradientTol stepSizeTol : ℚ) : ℕ × Option (ℚ × ℚ) :=
  if family = .normal ∧ link = .identity ∧ solver.isIRLS then
    (1, some (gradientTol, stepSizeTol))
  else (maxIter, none)

/-- Modelled from the spec: the outer IRLS loop of `_irls_solver`
(module `_solvers`, not under src/).  Per spec section 4.5, the loop
iterates (one linearize-and-solve step per iteration) and then checks,
stopping on convergence or when the iteration count reaches the limit;
the returned number is the iteration count. -/
def irlsGo {σ : Type} (step : σ → σ) (done : σ → Bool) :
    ℕ → σ → ℕ → σ × ℕ
  | 0, s, n => (s, n)
  | fuel + 1, s, n =>
    let s' := step s
    if done s' then (s', n + 1) else irlsGo step done fuel s' (n + 1)

/-- Modelled from the spec: run the IRLS loop from an initial state with a
given iteration limit, returning the final state and the iteration count. -/
def irlsRun {σ : Type} (step : σ → σ) (done : σ → Bool) (maxIter : ℕ)
    (s : σ) : σ × ℕ :=
  irlsGo step done maxIter s 0

/-- C4.  For a Normal family with Identity link under an IRLS solver, the
iteration limit is forced to 1 (so the outer loop runs exactly one iteration,
whatever the step and convergence check do) and the fixed inner tolerance pair
replaces the adaptive one; for any other family/link pair the configured limit
is used unchanged with no fixed inner tolerance. -/
theorem solve_normal_identity_one_iteration (family : Family) (link : LinkKind)
    (solver : Solver) (maxIter : ℕ) (gradientTol stepSizeTol : ℚ) :
    (solveMaxIterTol family link solver maxIter gradientTol stepSizeTol =
      if family = .normal ∧ link = .identity ∧ solver.isIRLS then
        (1, some (gradientTol, stepSizeTol))
      else (maxIter, none))
    ∧ ∀ (σ : Type) (step : σ → σ) (done : σ → Bool) (s : σ),
        (irlsRun step done 1 s).2 = 1 := by
  refine ⟨rfl, fun σ step done s => ?_⟩
  unfold irlsRun irlsGo
  by_cases h : done (step s) <;> simp [h, irlsGo]

example : (irlsRun (fun n => n + 1) (fun _ => false) 5 (0 : ℕ)) = (5, 5) := rfl
example : (irlsRun (fun n => n + 1) (fun n => decide (2 ≤ n)) 5 (0 : ℕ)) = (2, 2) := rfl

/-! ## L2 penalty setup (`setup_p2`, C8) -/

/-- The user-facing `P2` argument as `setup_p2` receives it: the literal
string `"identity"`, `None`, some other string, a 1-d array, or a 2-d array
(rows are uniform for a numpy array; squareness is checked by the code). -/
inductive P2Spec
  | identStr
  | noneSpec
  | otherStr (s : String)
  | vec (v : List ℚ)
  | mat (A : List (List ℚ))
deriving DecidableEq, Repr

/-- The representations `setup_p2` can return: a dense 1-d weight vector, a
sparse diagonal matrix (carried by its diagonal), or a dense or sparse full
matrix. -/
inductive P2Result
  | denseVec (v : List ℚ)
  | sparseDiag (v : List ℚ)
  | denseMat (A : List (List ℚ))
  | sparseMat (A : List (List ℚ))
deriving DecidableEq, Repr

/-- Entry (i, j) of a list-of-rows matrix, defaulting to 0. -/
def matEntry (A : List (List ℚ)) (i j : ℕ) : ℚ :=
  (A.getD i []).getD j 0

/-- The symmetrization `0.5 * (P2 + P2.T)` of a square list-of-rows matrix. -/
def symmetrize2d (A : List (List ℚ)) : List (List ℚ) :=
  (List.range A.length).map fun i =>
    (List.range A.length).map fun j => 1/2 * (matEntry A i j + matEntry A j i)

/-- Elementwise scaling `c * P2`, the line `P2 = alpha * (1 - l1_ratio) * P2`. -/
def scaleP2 (c : ℚ) : P2Result → P2Result
  | .denseVec v => .denseVec (v.map (fun x => c * x))
  | .sparseDiag v => .sparseDiag (v.map (fun x => c * x))
  | .denseMat A => .denseMat (A.map (List.map (fun x => c * x)))
  | .sparseMat A => .sparseMat (A.map (List.map (fun x => c * x)))

/-- The symmetrization step of `setup_p2` (code lines 2095-2102): applied only
when the representation is two-dimensional.  A 1-d dense vector is untouched;
the sparse diagonal matrix is two-dimensional, and `0.5 * (P2 + P2.T)` acts on
its diagonal entries as `x` goes to `1/2 * (x + x)`. -/
def symmetrizeP2 : P2Result → P2Result
  | .denseVec v => .denseVec v
  | .sparseDiag v => .sparseDiag (v.map (fun x => 1/2 * (x + x)))
  | .denseMat A => .denseMat (symmetrize2d A)
  | .sparseMat A => .sparseMat (symmetrize2d A)

/-- The function `setup_p2` (code lines 2038-2103): build the representation
from the user specification and the sparsity of X, validate the shape, scale
by `alpha * (1 - l1_ratio)`, and symmetrize two-dimensional results. -/
def setup_p2 (spec : P2Spec) (sparseX : Bool) (nFeatures : ℕ)
    (alpha l1Ratio : ℚ) : Except String P2Result :=
  let c := alpha * (1 - l1Ratio)
  match spec with
  | .identStr | .noneSpec =>
    .ok (symmetrizeP2 (scaleP2 c
      (if sparseX then .sparseDiag (List.replicate nFeatures 1)
       else .denseVec (List.replicate nFeatures 1))))
  | .otherStr _ => .error "P2 must be either identity or an array."
  | .vec v =>
    if v.length = nFeatures then
      .ok (symmetrizeP2 (scaleP2 c
        (if sparseX then .sparseDiag v else .denseVec v)))
    else .error "P2 should be a 1d array of shape X.shape 1."
  | .mat A =>
    if A.length = nFeatures ∧ A.all (fun r => r.length = nFeatures) then
      .ok (symmetrizeP2 (scaleP2 c
        (if sparseX then .sparseMat A else .denseMat A)))
    else .error "P2 must be either None or an array of shape n_features by n_features."

/-- The result of `setup_p2` as the claim states it: the weights scaled by
`alpha * (1 - l1_ratio)`, symmetrized as half of the matrix plus its transpose
when two-dimensional, with a sparse diagonal representation whenever X is
sparse and the specification is uniform or a vector; any other shape is a
validation error. -/
def specSetupP2 (spec : P2Spec) (sparseX : Bool) (nFeatures : ℕ)
    (alpha l1Ratio : ℚ) : Except String P2Result :=
  let c := alpha * (1 - l1Ratio)
  match spec with
  | .identStr | .noneSpec =>
    .ok (if sparseX then .sparseDiag (List.replicate nFeatures c)
         else .denseVec (List.replicate nFeatures c))
  | .otherStr _ => .error "P2 must be either identity or an array."
  | .vec v =>
    if v.length = nFeatures then
      .ok (if sparseX then .sparseDiag (v.map (fun x => c * x))
           else .denseVec (v.map (fun x => c * x)))
    else .error "P2 should be a 1d array of shape X.shape 1."
  | .mat A =>
    if A.length = nFeatures ∧ A.all (fun r => r.length = nFeatures) then
      .ok ((if sparseX then P2Result.sparseMat else P2Result.denseMat)
        (symmetrize2d (A.map (List.map (fun x => c * x)))))
    else .error "P2 must be either None or an array of shape n_features by n_features."

theorem half_add_self (c : ℚ) : 2⁻¹ * (c + c) = c := by ring

theorem fun_id_comp {α β : Type _} (f : α → β) : ((fun x => x) ∘ f) = f := rfl

theorem comp_half_scale (c : ℚ) :
    (fun x : ℚ => 2⁻¹ * (x + x)) ∘ (fun x : ℚ => c * x) = fun x : ℚ => c * x := by
  funext x
  simp only [Function.comp_apply]
  ring

/-- C8.  For every L2-penalty specification, `setup_p2` returns
`alpha * (1 - l1_ratio)` times the specified weights, symmetrized as half of
the matrix plus its transpose when the result is two-dimensional; a sparse
design with a uniform or vector specification yields a sparse diagonal matrix;
any other shape raises a validation error. -/
theorem setup_p2_spec (spec : P2Spec) (sparseX : Bool) (nFeatures : ℕ)
    (alpha l1Ratio : ℚ) :
    setup_p2 spec sparseX nFeatures alpha l1Ratio =
      specSetupP2 spec sparseX nFeatures alpha l1Ratio := by
  unfold setup_p2 specSetupP2
  cases spec <;> cases sparseX <;>
    simp [scaleP2, symmetrizeP2, List.map_map, comp_half_scale, half_add_self,
      fun_id_comp]

/-! ## Clustered covariance matrix (`covariance_matrix` and `_group_sum`, C3) -/

open Matrix

/-- The function `_group_sum` (code lines 2106-2113): sum the rows of `data`
within each cluster, the clusters being labelled 0 .. k-1. -/
def groupSum {m k n : ℕ} (groups : Fin m → Fin k)
    (data : Matrix (Fin m) (Fin n) ℚ) : Matrix (Fin k) (Fin n) ℚ :=
  Matrix.of fun g j => ∑ r, if groups r = g then data r j else 0

/-- The clustered covariance matrix computed by `covariance_matrix`
(code lines 1522-1536).  `Hinv` is the inverse of the (observed or expected)
information matrix: the external call `linalg.solve(oim, B)` is embedded as
`Hinv * B`, so the code's
`linalg.solve(oim, linalg.solve(oim, inner_part).T) * correction` becomes
`correction • (Hinv * (Hinv * inner)ᵀ)` with
`inner = (grouped gradient)ᵀ * (grouped gradient)` and
`correction = (M/(M-1)) * ((N-1)/(N-p))`, where M = k is the number of
distinct clusters, N = `sum_weights`, and p = features + intercept. -/
def clusteredVcov {m n k : ℕ} (Hinv : Matrix (Fin n) (Fin n) ℚ)
    (gradient : Matrix (Fin m) (Fin n) ℚ) (groups : Fin m → Fin k)
    (sumWeights pDim : ℚ) : Matrix (Fin n) (Fin n) ℚ :=
  let Gc := groupSum groups gradient
  let inner := Gcᵀ * Gc
  (((k : ℚ) / ((k : ℚ) - 1)) * ((sumWeights - 1) / (sumWeights - pDim))) •
    (Hinv * (Hinv * inner)ᵀ)

/-- The clustered covariance matrix as the claim states it: the sandwich of
the inverse information around the cluster-summed scores, scaled by
`(M/(M-1)) * (N/(N-p))`. -/
def specClusteredVcov {m n k : ℕ} (Hinv : Matrix (Fin n) (Fin n) ℚ)
    (gradient : Matrix (Fin m) (Fin n) ℚ) (groups : Fin m → Fin k)
    (sumWeights pDim : ℚ) : Matrix (Fin n) (Fin n) ℚ :=
  let Gc := groupSum groups gradient
  (((k : ℚ) / ((k : ℚ) - 1)) * (sumWeights / (sumWeights - pDim))) •
    (Hinv * (Gcᵀ * Gc) * Hinv)

/-- C3, counterexample.  One feature, two observations in two singleton
clusters, unit scores, identity inverse information, weighted observation
count N = 3 and p = 1: the code returns (2/1) * ((3-1)/(3-1)) * 2 = 4 while
the claim's formula gives (2/1) * (3/(3-1)) * 2 = 6. -/
theorem clustered_vcov_ne_spec :
    clusteredVcov (1 : Matrix (Fin 1) (Fin 1) ℚ)
        (Matrix.of fun _ _ => (1 : ℚ)) (id : Fin 2 → Fin 2) 3 1 ≠
      specClusteredVcov (1 : Matrix (Fin 1) (Fin 1) ℚ)
        (Matrix.of fun _ _ => (1 : ℚ)) (id : Fin 2 → Fin 2) 3 1 := by
  intro h
  have h00 := congrFun (congrFun h 0) 0
  simp only [clusteredVcov, specClusteredVcov, groupSum, Matrix.smul_apply,
    Matrix.mul_apply, Matrix.transpose_apply, Matrix.one_apply, Matrix.of_apply,
    Fin.sum_univ_two, Fin.sum_univ_one, smul_eq_mul] at h00
  norm_num [Fin.ext_iff] at h00

/-- C3, amended.  With a symmetric inverse information matrix, the clustered
covariance matrix equals the sandwich of the inverse information around the
cluster-summed scores, scaled by `(M/(M-1)) * ((N-1)/(N-p))` — the
finite-sample factor uses N-1, not N, in its second numerator. -/
theorem clustered_vcov_amended {m n k : ℕ} (Hinv : Matrix (Fin n) (Fin n) ℚ)
    (gradient : Matrix (Fin m) (Fin n) ℚ) (groups : Fin m → Fin k)
    (sumWeights pDim : ℚ) (hsym : Hinvᵀ = Hinv) :
    clusteredVcov Hinv gradient groups sumWeights pDim =
      (((k : ℚ) / ((k : ℚ) - 1)) * ((sumWeights - 1) / (sumWeights - pDim))) •
        (Hinv * ((groupSum groups gradient)ᵀ * groupSum groups gradient) * Hinv) := by
  unfold clusteredVcov
  dsimp only
  rw [Matrix.transpose_mul, Matrix.transpose_mul, Matrix.transpose_transpose,
    hsym, ← Matrix.mul_assoc, Matrix.mul_assoc]

theorem clustered_vcov_amended_witness :
    (1 : Matrix (Fin 1) (Fin 1) ℚ)ᵀ = 1 ∧
      clusteredVcov (1 : Matrix (Fin 1) (Fin 1) ℚ)
          (Matrix.of fun _ _ => (1 : ℚ)) (id : Fin 2 → Fin 2) 3 1 =
        ((((2 : ℕ) : ℚ) / (((2 : ℕ) : ℚ) - 1)) * ((3 - 1) / (3 - 1))) •
          ((1 : Matrix (Fin 1) (Fin 1) ℚ) *
            ((groupSum (id : Fin 2 → Fin 2) (Matrix.of fun _ _ => (1 : ℚ)))ᵀ *
              groupSum (id : Fin 2 → Fin 2) (Matrix.of fun _ _ => (1 : ℚ))) * 1) :=
  ⟨Matrix.transpose_one,
    clustered_vcov_amended 1 (Matrix.of fun _ _ => (1 : ℚ)) id 3 1 Matrix.transpose_one⟩

/-! ## Alpha grid construction (`_make_grid`, C6) -/

/-- The message of the validation error raised by `_make_grid` when the
user-specified minimum alpha is at least the maximum alpha. -/
def minAlphaErrorMsg : String :=
  "Current value of min_alpha would generate all zeros. Consider reducing this value."

/-- The minimum alpha resolved by `_make_grid` (code lines 360-373): the
explicit `min_alpha` when supplied (rejected if at least `max_alpha`),
otherwise `max_alpha` times the ratio, with default ratio 1e-6. -/
def resolveMinAlpha (minAlpha minAlphaRatio : Option ℚ) (maxAlpha : ℚ) :
    Except String ℚ :=
  match minAlpha with
  | none =>
    match minAlphaRatio with
    | none => .ok (maxAlpha * (1 / 1000000))
    | some r => .ok (maxAlpha * r)
  | some m =>
    if m ≥ maxAlpha then .error minAlphaErrorMsg
    else .ok m

/-- The function `_make_grid` (code lines 359-380) up to its call into the
external `np.logspace`: resolve the minimum alpha, then hand
`(max_alpha, min_alpha, n_alphas)` to the base-e logspace.  An error from the
resolution step propagates, so no grid is produced. -/
def makeGridCall (minAlpha minAlphaRatio : Option ℚ) (maxAlpha : ℚ)
    (nAlphas : ℕ) : Except String (ℚ × ℚ × ℕ) :=
  match resolveMinAlpha minAlpha minAlphaRatio maxAlpha with
  | .error e => .error e
  | .ok m => .ok (maxAlpha, m, nAlphas)

theorem getD_range_map (n : ℕ) (f : ℕ → ℝ) (i : ℕ) (h : i < n) :
    (((List.range n).map f).getD i 0) = f i := by
  rw [List.getD_eq_getElem?_getD, List.getElem?_map, List.getElem?_range h]
  rfl

/-- C6.  A user-supplied minimum alpha at least as large as the maximum alpha
is a validation error and no grid is produced; an absent minimum alpha
resolves to `max_alpha` times the ratio (default 1e-6); and the grid built by
the base-e logspace on the resolved pair is a geometric sequence of exactly
`n_alphas` points running from `max_alpha` down to the resolved minimum. -/
theorem make_grid_spec (minAlpha minAlphaRatio : Option ℚ) (maxAlpha : ℚ)
    (nAlphas : ℕ) (hn : 2 ≤ nAlphas) (hmax : 0 < maxAlpha) :
    (∀ m, minAlpha = some m → maxAlpha ≤ m →
        makeGridCall minAlpha minAlphaRatio maxAlpha nAlphas =
          .error minAlphaErrorMsg)
    ∧ (minAlpha = none →
        makeGridCall minAlpha minAlphaRatio maxAlpha nAlphas =
          .ok (maxAlpha, maxAlpha * (minAlphaRatio.getD (1 / 1000000)), nAlphas))
    ∧ (∀ (minRes : ℚ) (g : List ℝ),
        makeGridCall minAlpha minAlphaRatio maxAlpha nAlphas =
          .ok (maxAlpha, minRes, nAlphas) →
        0 < minRes →
        g = (List.range nAlphas).map (fun i : ℕ =>
          Real.exp (Real.log (maxAlpha : ℝ) + (i : ℝ) *
            (Real.log (minRes : ℝ) - Real.log (maxAlpha : ℝ)) /
              ((nAlphas : ℝ) - 1))) →
        g.length = nAlphas
          ∧ g.getD 0 0 = (maxAlpha : ℝ)
          ∧ g.getD (nAlphas - 1) 0 = (minRes : ℝ)
          ∧ ∀ i j, i + 1 < nAlphas → j + 1 < nAlphas →
              g.getD (i + 1) 0 / g.getD i 0 = g.getD (j + 1) 0 / g.getD j 0) := by
  have hn1 : ((nAlphas : ℝ) - 1) ≠ 0 := by
    have : (2 : ℝ) ≤ (nAlphas : ℝ) := by exact_mod_cast hn
    linarith
  refine ⟨?_, ?_, ?_⟩
  · intro m hm hge
    subst hm
    simp [makeGridCall, resolveMinAlpha, hge]
  · intro hm
    subst hm
    cases minAlphaRatio <;> simp [makeGridCall, resolveMinAlpha]
  · intro minRes g _ hpos hg
    have hmaxR : (0 : ℝ) < (maxAlpha : ℝ) := by exact_mod_cast hmax
    have hposR : (0 : ℝ) < (minRes : ℝ) := by exact_mod_cast hpos
    subst hg
    refine ⟨by simp, ?_, ?_, ?_⟩
    · rw [getD_range_map _ _ 0 (by omega)]
      simp [Real.exp_log hmaxR]
    · rw [getD_range_map _ _ (nAlphas - 1) (by omega)]
      have h1 : 1 ≤ nAlphas := by omega
      have hcast : ((nAlphas - 1 : ℕ) : ℝ) = (nAlphas : ℝ) - 1 := by
        rw [Nat.cast_sub h1, Nat.cast_one]
      rw [hcast, mul_div_cancel_left₀ _ hn1]
      have harith : Real.log (maxAlpha : ℝ) +
          (Real.log (minRes : ℝ) - Real.log (maxAlpha : ℝ)) = Real.log (minRes : ℝ) := by
        ring
      rw [harith, Real.exp_log hposR]
    · intro i j hi hj
      rw [getD_range_map _ _ (i + 1) (by omega), getD_range_map _ _ i (by omega),
        getD_range_map _ _ (j + 1) (by omega), getD_range_map _ _ j (by omega)]
      rw [← Real.exp_sub, ← Real.exp_sub]
      congr 1
      push_cast
      ring

theorem make_grid_spec_witness :
    2 ≤ 2 ∧ (0 : ℚ) < 3 ∧
      makeGridCall none none 3 2 = .ok (3, 3 * (1 / 1000000), 2) :=
  ⟨le_refl 2, by norm_num,
    (make_grid_spec none none 3 2 (le_refl 2) (by norm_num)).2.1 rfl⟩

/-! ## Response-range validation (`_set_up_for_fit`, C7) -/

/-- The message of the validation error raised when y leaves the valid range
of the family. -/
def yRangeErrorMsg : String :=
  "Some value(s) of y are out of the valid range for the family."

/-- The `check_input` validation of `_set_up_for_fit` (code lines 329-334):
with input checking enabled, if any entry of y lies outside the valid range
of the selected family — `inYRange` is the external per-family predicate
`in_y_range` of module `_distribution` — a `ValueError` is raised. -/
def setUpForFitCheck (checkInput : Bool) (inYRange : ℚ → Bool)
    (y : List ℚ) : Except String Unit :=
  if checkInput then
    if y.all inYRange then .ok () else .error yRangeErrorMsg
  else .ok ()

/-- Modelled from the spec: the fit entry point is not under src/; per spec
sections 4.5 and 7, it runs `_set_up_for_fit` validation before any solving
begins, and the solver consumes y as given (values are never clamped into
range). -/
def fitPipeline (checkInput : Bool) (inYRange : ℚ → Bool) (y : List ℚ)
    (solve : List ℚ → List ℚ) : Except String (List ℚ) :=
  match setUpForFitCheck checkInput inYRange y with
  | .error e => .error e
  | .ok _ => .ok (solve y)

/-- C7.  With input checking enabled, a response containing a value outside
the family's valid range makes the fit fail with a validation error before
any solver runs (the outcome is the same error for every solver, so no
coefficient state is produced); and whenever a fit does return coefficients,
the solver was applied to the original, unclamped response. -/
theorem y_out_of_range_rejected (inYRange : ℚ → Bool) (y : List ℚ)
    (h : ∃ yi ∈ y, inYRange yi = false) :
    (∀ solve : List ℚ → List ℚ,
        fitPipeline true inYRange y solve = .error yRangeErrorMsg)
    ∧ (∀ (checkInput : Bool) (solve : List ℚ → List ℚ) (coef : List ℚ),
        fitPipeline checkInput inYRange y solve = .ok coef → coef = solve y) := by
  constructor
  · intro solve
    obtain ⟨yi, hmem, hfalse⟩ := h
    have hall : y.all inYRange ≠ true := by
      intro hall
      rw [List.all_eq_true] at hall
      exact Bool.false_ne_true (hfalse ▸ hall yi hmem)
    unfold fitPipeline setUpForFitCheck
    simp [hall]
  · intro checkInput solve coef hok
    unfold fitPipeline at hok
    cases hceq : setUpForFitCheck checkInput inYRange y with
    | error e => rw [hceq] at hok; cases hok
    | ok u => rw [hceq] at hok; cases hok; rfl

theorem y_out_of_range_rejected_witness :
    (∃ yi ∈ ([-1, 2] : List ℚ), (fun q : ℚ => decide (0 ≤ q)) yi = false) ∧
      ∀ solve : List ℚ → List ℚ,
        fitPipeline true (fun q : ℚ => decide (0 ≤ q)) [-1, 2] solve =
          .error yRangeErrorMsg :=
  ⟨⟨-1, by simp, decide_eq_false_iff_not.mpr (by norm_num)⟩,
    (y_out_of_range_rejected (fun q : ℚ => decide (0 ≤ q)) [-1, 2]
      ⟨-1, by simp, decide_eq_false_iff_not.mpr (by norm_num)⟩).1⟩

/-! ## Covariance condition-number guard (`covariance_matrix`, C9) -/

/-- The double-precision machine epsilon `sys.float_info.epsilon`. -/
def floatEps : ℚ := 1 / 2 ^ 52

/-- The message of the singular-matrix error raised by `covariance_matrix`. -/
def singularErrorMsg : String :=
  "Matrix is singular. Cannot estimate standard errors."

/-- The condition-number guard of `covariance_matrix` (code lines 1491-1497):
`cond` is the externally computed `np.linalg.cond` of the sandwich product
`X.sandwich(ones)`; when it exceeds `1 / eps^2` the code raises a
`LinAlgError`, and only otherwise does the covariance computation
(`vcov`) run and its matrix get returned. -/
def covarianceMatrixChecked {α : Type} (cond : ℚ) (vcov : Unit → α) :
    Except String α :=
  if cond > 1 / floatEps ^ 2 then .error singularErrorMsg
  else .ok (vcov ())

/-- C9.  If the condition number of the design's sandwich product exceeds one
over the square of machine epsilon, the covariance-matrix request fails with
a singular-matrix error, whatever the downstream computation would have been,
so no covariance matrix (and no standard errors) is returned. -/
theorem singular_sandwich_rejected {α : Type} (cond : ℚ)
    (h : 1 / floatEps ^ 2 < cond) :
    ∀ vcov : Unit → α,
      covarianceMatrixChecked cond vcov = .error singularErrorMsg := by
  intro vcov
  unfold covarianceMatrixChecked
  rw [if_pos h]

theorem singular_sandwich_rejected_witness :
    1 / floatEps ^ 2 < (2 : ℚ) ^ 110 ∧
      covarianceMatrixChecked (2 ^ 110) (fun _ => (0 : ℚ)) =
        .error singularErrorMsg :=
  ⟨by norm_num [floatEps],
    singular_sandwich_rejected ((2 : ℚ) ^ 110) (by norm_num [floatEps])
      (fun _ => (0 : ℚ))⟩

/-! ## Weight normalization (`_set_up_and_check_fit_args`, C10) -/

/-- The weight normalization of `_set_up_and_check_fit_args`
(code lines 1897-1911): the sample weights are divided by their sum, and the
original sum is returned alongside for later dispersion and information
criteria computations. -/
def normalizeWeights (w : List ℚ) : List ℚ × ℚ :=
  let weightsSum := w.sum
  (w.map (fun x => x / weightsSum), weightsSum)

theorem sum_map_div (w : List ℚ) (s : ℚ) :
    (w.map (fun x => x / s)).sum = w.sum / s := by
  induction w with
  | nil => simp
  | cons a t ih => simp [ih, add_div]

theorem sum_map_mul_left_q (w : List ℚ) (c : ℚ) :
    (w.map (fun x => c * x)).sum = c * w.sum := by
  induction w with
  | nil => simp
  | cons a t ih => simp [ih, mul_add]

/-- C10.  The weights handed to the solver sum to exactly one, and for every
positive scalar c the normalized weights computed from c·w coincide with
those computed from w (so the solver inputs, hence the coefficients, agree),
while only the separately returned original sum changes, scaling by c. -/
theorem weights_normalized (w : List ℚ) (c : ℚ) (hw : 0 < w.sum) (hc : 0 < c) :
    (normalizeWeights w).1.sum = 1
    ∧ (normalizeWeights (w.map (fun x => c * x))).1 = (normalizeWeights w).1
    ∧ (normalizeWeights (w.map (fun x => c * x))).2 = c * w.sum := by
  have hs : w.sum ≠ 0 := ne_of_gt hw
  refine ⟨?_, ?_, ?_⟩
  · simp [normalizeWeights, sum_map_div, div_self hs]
  · unfold normalizeWeights
    dsimp only
    rw [sum_map_mul_left_q, List.map_map]
    apply List.map_congr_left
    intro a _
    simp only [Function.comp_apply]
    rw [mul_div_mul_left _ _ (ne_of_gt hc)]
  · unfold normalizeWeights
    dsimp only
    rw [sum_map_mul_left_q]

theorem weights_normalized_witness :
    (0 : ℚ) < ([1, 3] : List ℚ).sum ∧ (0 : ℚ) < 2 ∧
      (normalizeWeights [1, 3]).1.sum = 1 :=
  ⟨by norm_num [List.sum_cons, List.sum_nil], by norm_num,
    (weights_normalized [1, 3] 2 (by norm_num [List.sum_cons, List.sum_nil])
      (by norm_num)).1⟩

/-! ## Penalty-scaling equivalence (`fit_glmnet`, C5) -/

/-- Modelled from the spec: the elastic-net objective minimized by
`fit_glmnet` (module `glm_benchmarks.glmnet_qc.glmnet_qc`, not under src/;
only its test suite is).  Per the spec's glossary and penalty-setup section,
the objective is the deviance plus the elastic-net penalty
`alpha * s_j * (l1_ratio * |beta_j| + (1 - l1_ratio)/2 * beta_j^2)` summed
over features, with per-feature penalty scaling s and an unpenalized
intercept. -/
def glmnetObjective (dev : ℚ → List ℚ → ℚ) (alpha l1Ratio : ℚ)
    (scaling : List ℚ) (intercept : ℚ) (beta : List ℚ) : ℚ :=
  dev intercept beta +
    ((scaling.zip beta).map
      (fun p => alpha * p.1 * (l1Ratio * |p.2| + (1 - l1Ratio) / 2 * p.2 ^ 2))).sum

/-- Modelled from the spec: a fitted glmnet model is a global minimizer of
the objective over intercept and coefficients. -/
def IsGlmnetFit (dev : ℚ → List ℚ → ℚ) (alpha l1Ratio : ℚ)
    (scaling : List ℚ) (sol : ℚ × List ℚ) : Prop :=
  ∀ (i : ℚ) (b : List ℚ),
    glmnetObjective dev alpha l1Ratio scaling sol.1 sol.2 ≤
      glmnetObjective dev alpha l1Ratio scaling i b

/-- C5.  For every positive k, the objective with penalty strength a/k and
per-feature scaling k·s is pointwise equal to the objective with strength a
and scaling s, so both parameterizations have exactly the same fitted
intercepts and coefficient vectors: only the product of the scalar penalty
and the per-feature scaling determines the solution. -/
theorem penalty_scaling_equivalence (dev : ℚ → List ℚ → ℚ)
    (alpha l1Ratio k : ℚ) (scaling : List ℚ) (hk : 0 < k) :
    (∀ (i : ℚ) (b : List ℚ),
        glmnetObjective dev (alpha / k) l1Ratio (scaling.map (fun s => k * s)) i b =
          glmnetObjective dev alpha l1Ratio scaling i b)
    ∧ ∀ sol : ℚ × List ℚ,
        IsGlmnetFit dev (alpha / k) l1Ratio (scaling.map (fun s => k * s)) sol ↔
          IsGlmnetFit dev alpha l1Ratio scaling sol := by
  have hk0 : k ≠ 0 := ne_of_gt hk
  have hobj : ∀ (i : ℚ) (b : List ℚ),
      glmnetObjective dev (alpha / k) l1Ratio (scaling.map (fun s => k * s)) i b =
        glmnetObjective dev alpha l1Ratio scaling i b := by
    intro i b
    unfold glmnetObjective
    congr 1
    rw [List.zip_map_left, List.map_map]
    refine congrArg List.sum (List.map_congr_left ?_)
    intro p _
    simp only [Function.comp_apply, Prod.map_fst, Prod.map_snd, id_eq]
    rw [show alpha / k * (k * p.1) = alpha / k * k * p.1 by ring,
      div_mul_cancel₀ alpha hk0]
  refine ⟨hobj, fun sol => ?_⟩
  unfold IsGlmnetFit
  constructor
  · intro hfit i b
    have := hfit i b
    rwa [hobj, hobj] at this
  · intro hfit i b
    rw [hobj, hobj]
    exact hfit i b

theorem penalty_scaling_equivalence_witness :
    (0 : ℚ) < 2 ∧
      ∀ (i : ℚ) (b : List ℚ),
        glmnetObjective (fun i0 _ => i0 ^ 2) ((1 : ℚ) / 2) (1/2)
            (([1] : List ℚ).map (fun s => 2 * s)) i b =
          glmnetObjective (fun i0 _ => i0 ^ 2) 1 (1/2) [1] i b :=
  ⟨by norm_num,
    (penalty_scaling_equivalence (fun i0 _ => i0 ^ 2) 1 (1/2) 2 [1] (by norm_num)).1⟩

end Glum
